import Mathlib

/-!
Verification of the knot-vector / control-point synthesis algorithm
`create_bspline` of `src/bspline.py`, shallowly embedded over `ℚ`.

The embedding mirrors the source line by line:

* `np.linspace(a, b, m)` with integer endpoints satisfying `b = a + m - 1`
  (the only way the source calls it) is the arithmetic sequence
  `a, a+1, …, a+m-1`; a negative sample count makes `np.linspace` raise,
  which the embedding models as `none`.
* Python `assert` failures and `IndexError`s are modelled as `none`.
* `int(max(k-1,0)/2)` truncates a non-negative real, i.e. floors it,
  which equals `(k-1).toNat / 2` in Lean.
* negative Python indices `x[-1]`, `x[-2]` are `getD (len-1)`, `getD (len-2)`.
-/

namespace BSpline

/-- `np.linspace(a, a+m-1, m)` as rationals: `[a, a+1, …, a+m-1]`. -/
def intSteps (a : ℤ) (m : ℕ) : List ℚ :=
  (List.range m).map (fun i : ℕ => ((a + i : ℤ) : ℚ))

/-- `list(h + np.linspace(-m, -1, m) * d)` : the list `[h - m*d, …, h - d]`. -/
def backSteps (h d : ℚ) (m : ℕ) : List ℚ :=
  (intSteps (-(m : ℤ)) m).map (fun s => h + s * d)

/-- `list(h + np.linspace(1, m, m) * d)` : the list `[h + d, …, h + m*d]`. -/
def fwdSteps (h d : ℚ) (m : ℕ) : List ℚ :=
  (intSteps 1 m).map (fun s => h + s * d)

/-- `list(0.5*np.array(xs[0:-1]) + 0.5*np.array(xs[1:]))` :
pairwise midpoints of adjacent entries. -/
def mids : List ℚ → List ℚ
  | a :: b :: t => (a / 2 + b / 2) :: mids (b :: t)
  | _ => []

/-- `range(0, n)`, the default parameter sequence (line 24). -/
def defaultParams (n : ℕ) : List ℚ := (List.range n).map (fun i : ℕ => (i : ℚ))

/-- `left_shift = 1 + int(max(k-1, 0)/2)` when `fix_shift`, else `0`
(lines 31 and 38).  `int` truncation of the non-negative real `max(k-1,0)/2`
is the floor, i.e. `(k-1).toNat / 2`. -/
def leftShift (k : ℤ) (fix_shift : Bool) : ℕ :=
  if fix_shift then 1 + (k - 1).toNat / 2 else 0

/-- `rep = max(k-1, 0)` (line 41). -/
def clampRep (k : ℤ) : ℕ := (k - 1).toNat

/-- the number of knots the tail extension appends: `k - left_shift + 1`
(line 61). -/
def tailCount (k : ℤ) (fix_shift : Bool) : ℤ := k - leftShift k fix_shift + 1

/-- `dx_start = x_values[1] - x_values[0]` (line 28). -/
def dxStart (x : List ℚ) : ℚ := x.getD 1 0 - x.getD 0 0

/-- `dx_end = x_values[-1] - x_values[-2]` (line 27). -/
def dxEnd (x : List ℚ) : ℚ := x.getD (x.length - 1) 0 - x.getD (x.length - 2) 0

/-- lines 30–38: the shift-corrected parameter sequence.  When `fix_shift`,
prepend `left_shift` backward steps of size `dx_start`; when additionally
`k > 0` and `k` is even, prepend one half step and replace the rest by the
pairwise midpoints of adjacent entries. -/
def shiftedX (k : ℤ) (fix_shift : Bool) (dx_start : ℚ) (x : List ℚ) : List ℚ :=
  if fix_shift then
    let x1 := backSteps (x.getD 0 0) dx_start (leftShift k fix_shift) ++ x
    if 0 < k ∧ k % 2 = 0 then (x1.getD 0 0 - dx_start * (1 / 2)) :: mids x1 else x1
  else x

/-- lines 40–43: the clamp extension of the (already shifted) parameter
sequence: `rep` backward steps of `dx_start` in front, `rep` forward steps of
`dx_end` behind. -/
def clampedX (k : ℤ) (clamped : Bool) (dx_start dx_end : ℚ) (x : List ℚ) : List ℚ :=
  if clamped then
    backSteps (x.getD 0 0) dx_start (clampRep k) ++ x ++
      fwdSteps (x.getD (x.length - 1) 0) dx_end (clampRep k)
  else x

/-- lines 44–55: the control points.  When `clamped`, `rep` linearly
extrapolated ghost samples are mirrored on each side of `y`
(`y[0] + i*dy_start` for `i = -rep..-1` in front, `y[-1] + i*dy_end` for
`i = 1..rep` behind); otherwise the samples pass through unchanged. -/
def clampedCP (k : ℤ) (clamped : Bool) (y : List ℚ) : List ℚ :=
  if clamped then
    let dy_start := y.getD 1 0 - y.getD 0 0
    let dy_end := y.getD (y.length - 1) 0 - y.getD (y.length - 2) 0
    backSteps (y.getD 0 0) dy_start (clampRep k) ++ y ++
      fwdSteps (y.getD (y.length - 1) 0) dy_end (clampRep k)
  else y

/-- the knot candidate before the tail extension: shift correction then clamp
extension of the parameter sequence. -/
def knotsBase (k : ℤ) (clamped fix_shift : Bool) (x : List ℚ) : List ℚ :=
  clampedX k clamped (dxStart x) (dxEnd x) (shiftedX k fix_shift (dxStart x) x)

/-- line 61: the final knot vector, the knot candidate followed by
`k - left_shift + 1` forward steps of `dx_end`. -/
def finalKnots (k : ℤ) (clamped fix_shift : Bool) (x : List ℚ) : List ℚ :=
  let b := knotsBase k clamped fix_shift x
  b ++ fwdSteps (b.getD (b.length - 1) 0) (dxEnd x) (tailCount k fix_shift).toNat

/-- the `(knots, control_points, degree, extrapolate)` tuple handed to the
external evaluator (line 63, `scipy.interpolate.BSpline`). -/
structure Spline where
  knots : List ℚ
  controlPoints : List ℚ
  degree : ℕ
  extrapolate : Bool
deriving DecidableEq, Repr

/-- `create_bspline(k, y_values, x_values, clamped, fix_shift, extrapolate)`
(lines 9–63).  `none` models a fatal error (failed `assert`, `IndexError`,
or `np.linspace` with a negative sample count). -/
def create_bspline (k : ℤ) (y_values : List ℚ) (x_values : Option (List ℚ) := none)
    (clamped : Bool := true) (fix_shift : Bool := true) (extrapolate : Bool := true) :
    Option Spline :=
  -- `if not x_values: x_values = range(0, len(y_values))` (lines 23–24)
  let x := match x_values with
    | none => defaultParams y_values.length
    | some xs => if xs.isEmpty then defaultParams y_values.length else xs
  -- `assert len(x_values) == len(y_values)` (line 25)
  if x.length ≠ y_values.length then none
  -- `x_values[-2]` and `x_values[1]` (lines 27–28) need at least two entries
  else if x.length < 2 then none
  else
    let cp := clampedCP k clamped y_values
    let b := knotsBase k clamped fix_shift x
    -- `assert len(x_values) == len(control_points) + left_shift` (line 57)
    if b.length ≠ cp.length + leftShift k fix_shift then none
    -- `assert k >= 0` (line 58)
    else if k < 0 then none
    -- `np.linspace(1, c, c)` with `c = k - left_shift + 1 < 0` raises (line 61)
    else if tailCount k fix_shift < 0 then none
    else some ⟨finalKnots k clamped fix_shift x, cp, k.toNat, extrapolate⟩

/-! ### Length lemmas -/

theorem intSteps_length (a : ℤ) (m : ℕ) : (intSteps a m).length = m := by
  rw [intSteps, List.length_map, List.length_range]

theorem backSteps_length (h d : ℚ) (m : ℕ) : (backSteps h d m).length = m := by
  rw [backSteps, List.length_map, intSteps_length]

theorem fwdSteps_length (h d : ℚ) (m : ℕ) : (fwdSteps h d m).length = m := by
  rw [fwdSteps, List.length_map, intSteps_length]

theorem backSteps_eq_map (h d : ℚ) (m : ℕ) :
    backSteps h d m =
      (List.range m).map (fun i : ℕ => h + (((i : ℤ) - m : ℤ) : ℚ) * d) := by
  rw [backSteps, intSteps, List.map_map]
  refine congrArg₂ List.map ?_ rfl
  funext i
  simp only [Function.comp_apply]
  push_cast
  ring

theorem fwdSteps_eq_map (h d : ℚ) (m : ℕ) :
    fwdSteps h d m =
      (List.range m).map (fun i : ℕ => h + (((i : ℤ) + 1 : ℤ) : ℚ) * d) := by
  rw [fwdSteps, intSteps, List.map_map]
  refine congrArg₂ List.map ?_ rfl
  funext i
  simp only [Function.comp_apply]
  push_cast
  ring

theorem mids_length (xs : List ℚ) : (mids xs).length = xs.length - 1 := by
  induction xs with
  | nil => simp [mids]
  | cons a t ih =>
    cases t with
    | nil => simp [mids]
    | cons b u => simpa [mids] using ih

theorem shiftedX_length (k : ℤ) (f : Bool) (d : ℚ) (x : List ℚ) (hx : x ≠ []) :
    (shiftedX k f d x).length = x.length + leftShift k f := by
  cases f with
  | false => simp [shiftedX, leftShift]
  | true =>
    have hxlen : 0 < x.length := List.length_pos.mpr hx
    by_cases hke : 0 < k ∧ k % 2 = 0
    · simp only [shiftedX, if_true, if_pos hke, List.length_cons, mids_length,
        List.length_append, backSteps_length, leftShift]
      omega
    · simp only [shiftedX, if_true, if_neg hke, List.length_append,
        backSteps_length]
      omega

theorem clampedX_length (k : ℤ) (c : Bool) (ds de : ℚ) (x : List ℚ) :
    (clampedX k c ds de x).length =
      x.length + (if c then 2 * clampRep k else 0) := by
  cases c <;> simp [clampedX, backSteps_length, fwdSteps_length] <;> omega

theorem clampedCP_length (k : ℤ) (c : Bool) (y : List ℚ) :
    (clampedCP k c y).length =
      y.length + (if c then 2 * clampRep k else 0) := by
  cases c <;> simp [clampedCP, backSteps_length, fwdSteps_length] <;> omega

theorem knotsBase_length (k : ℤ) (c f : Bool) (x : List ℚ) (hx : x ≠ []) :
    (knotsBase k c f x).length =
      x.length + leftShift k f + (if c then 2 * clampRep k else 0) := by
  rw [knotsBase, clampedX_length, shiftedX_length k f _ x hx]

theorem tailCount_nonneg (k : ℤ) (f : Bool) (hk : 0 ≤ k) :
    0 ≤ tailCount k f := by
  cases f <;> simp [tailCount, leftShift] <;> omega

/-- Under the (documented) preconditions the construction succeeds and the
produced spline is the closed-form pipeline output. -/
theorem create_bspline_eq_some (k : ℤ) (y x : List ℚ) (c f e : Bool)
    (hk : 0 ≤ k) (hn : 2 ≤ x.length) (hlen : x.length = y.length) :
    create_bspline k y (some x) c f e =
      some ⟨finalKnots k c f x, clampedCP k c y, k.toNat, e⟩ := by
  have hx : x ≠ [] := by
    intro h; rw [h] at hn; simp at hn
  have hxe : x.isEmpty = false := by
    simpa [List.isEmpty_iff] using hx
  have hb : (knotsBase k c f x).length =
      (clampedCP k c y).length + leftShift k f := by
    rw [knotsBase_length k c f x hx, clampedCP_length]
    omega
  have hcnt : ¬ tailCount k f < 0 := not_lt.mpr (tailCount_nonneg k f hk)
  have hny : ¬ (y.length < 2) := Nat.not_lt.mpr (hlen ▸ hn)
  simp [create_bspline, hxe, hlen, hb, hcnt, not_lt.mpr hk, hny]

/-- C1: the knot-count invariant `len(knots) = len(control_points) + k + 1`. -/
theorem finalKnots_length (k : ℤ) (c f : Bool) (x : List ℚ) (hx : x ≠ [])
    (hk : 0 ≤ k) :
    (finalKnots k c f x).length =
      x.length + (if c then 2 * clampRep k else 0) + k.toNat + 1 := by
  have hcnt := tailCount_nonneg k f hk
  rw [finalKnots]
  simp only [List.length_append, fwdSteps_length, knotsBase_length k c f x hx]
  have : (tailCount k f).toNat + leftShift k f = k.toNat + 1 := by
    cases f <;> simp [tailCount, leftShift] at * <;> omega
  omega

/-- C1: for every valid input (degree `k ≥ 0`, at least two samples, a
strictly ascending parameter sequence of matching length, any flags) the
spline returned by `create_bspline` satisfies
`len(knots) = len(control_points) + k + 1`. -/
theorem C1_knot_count_invariant (k : ℤ) (y x : List ℚ) (c f e : Bool)
    (hk : 0 ≤ k) (hn : 2 ≤ y.length) (hlen : x.length = y.length)
    (hasc : x.Chain' (· < ·)) :
    ∃ s : Spline, create_bspline k y (some x) c f e = some s ∧
      s.knots.length = s.controlPoints.length + k.toNat + 1 := by
  have hn' : 2 ≤ x.length := hlen ▸ hn
  have hx : x ≠ [] := by intro h; rw [h] at hn'; simp at hn'
  refine ⟨_, create_bspline_eq_some k y x c f e hk hn' hlen, ?_⟩
  simp only [finalKnots_length k c f x hx hk, clampedCP_length]
  omega

/-- C1 witness: a concrete valid run. -/
theorem C1_knot_count_invariant_witness :
    ∃ s : Spline,
      create_bspline 3 [4, 0, 3] (some [0, 1, 2]) true true true = some s ∧
      s.knots.length = s.controlPoints.length + (3 : ℤ).toNat + 1 :=
  C1_knot_count_invariant 3 [4, 0, 3] [0, 1, 2] true true true
    (by decide) (by decide) (by decide) (by norm_num [List.chain'_cons])

/-! ### C6: the tail-extension count is never negative for `k ≥ 0` -/

/-- C6 counterexample: the claim asserts that for some `k ≥ 0` with
`fix_shift = true` the tail-extension count `k - left_shift + 1` is negative;
in fact there is no such `k`. -/
theorem C6_counterexample : ¬ ∃ k : ℤ, 0 ≤ k ∧ tailCount k true < 0 := by
  rintro ⟨k, hk, hlt⟩
  simp only [tailCount, leftShift, if_true] at hlt
  omega

/-- C6 (amended): for every degree `k ≥ 0` and either `fix_shift` setting the
tail-extension knot count `k - left_shift + 1` is non-negative, so the fatal
branch for a negative count is unreachable for non-negative degrees. -/
theorem C6_amended_tail_count (k : ℤ) (f : Bool) (hk : 0 ≤ k) :
    0 ≤ tailCount k f :=
  tailCount_nonneg k f hk

/-- C6 witness. -/
theorem C6_amended_tail_count_witness :
    (0 : ℤ) ≤ 2 ∧ 0 ≤ tailCount 2 true :=
  ⟨by decide, C6_amended_tail_count 2 true (by decide)⟩

/-! ### C10: an empty parameter sequence is silently defaulted -/

theorem defaultParams_length (n : ℕ) : (defaultParams n).length = n := by
  rw [defaultParams, List.length_map, List.length_range]

/-- supplying `none` and supplying the default sequence itself produce the
same result. -/
theorem create_bspline_none_eq_default (k : ℤ) (y : List ℚ) (c f e : Bool) :
    create_bspline k y none c f e =
      create_bspline k y (some (defaultParams y.length)) c f e := by
  simp only [create_bspline, ite_self]

/-- C10: an empty (falsy) supplied parameter sequence is silently replaced by
the default parameters `0..n-1` and construction proceeds; only a non-empty
sequence of the wrong length is rejected. -/
theorem C10_empty_params_defaulted (k : ℤ) (y : List ℚ) (c f e : Bool)
    (hk : 0 ≤ k) (hn : 2 ≤ y.length) :
    create_bspline k y (some []) c f e =
        create_bspline k y (some (defaultParams y.length)) c f e ∧
      (∃ s, create_bspline k y (some []) c f e = some s) ∧
      ∀ xs : List ℚ, xs ≠ [] → xs.length ≠ y.length →
        create_bspline k y (some xs) c f e = none := by
  have hempty : create_bspline k y (some []) c f e =
      create_bspline k y none c f e := rfl
  have hdef := create_bspline_none_eq_default k y c f e
  have hsome := create_bspline_eq_some k y (defaultParams y.length) c f e hk
    (by rw [defaultParams_length]; exact hn) (defaultParams_length y.length)
  refine ⟨hempty.trans hdef, ⟨_, (hempty.trans hdef).trans hsome⟩, ?_⟩
  intro xs hne hlen
  have hxe : xs.isEmpty = false := by simpa [List.isEmpty_iff] using hne
  simp [create_bspline, hxe, hlen]

/-- C10 witness. -/
theorem C10_empty_params_defaulted_witness :
    create_bspline 1 [4, 0, 3] (some []) true true true =
        create_bspline 1 [4, 0, 3] (some (defaultParams [(4 : ℚ), 0, 3].length)) true true true ∧
      (∃ s, create_bspline 1 [4, 0, 3] (some []) true true true = some s) ∧
      ∀ xs : List ℚ, xs ≠ [] → xs.length ≠ [(4 : ℚ), 0, 3].length →
        create_bspline 1 [4, 0, 3] (some xs) true true true = none :=
  C10_empty_params_defaulted 1 [4, 0, 3] true true true (by decide) (by decide)

/-! ### C3: which precondition violations are actually rejected -/

/-- C3 counterexample: a non-strictly-ascending parameter sequence is not
rejected — `create_bspline` still produces a spline on `x = [0, 0, 1]`. -/
theorem C3_counterexample :
    ¬ ([0, 0, 1] : List ℚ).Chain' (· < ·) ∧
      ∃ s, create_bspline 0 [1, 2, 3] (some [0, 0, 1]) true true true = some s := by
  constructor
  · norm_num [List.chain'_cons]
  · exact ⟨_, create_bspline_eq_some 0 [1, 2, 3] [0, 0, 1] true true true
      (by decide) (by decide) (by decide)⟩

/-- C3 (amended): a supplied non-empty parameter sequence whose length differs
from the sample count, and a negative degree, each make the call fail fatally
before any spline is produced; a non-ascending (but length-matching)
parameter sequence is not checked and is not rejected. -/
theorem C3_amended_rejections (k : ℤ) (y xs : List ℚ) (c f e : Bool) :
    (xs ≠ [] → xs.length ≠ y.length →
        create_bspline k y (some xs) c f e = none) ∧
      (k < 0 → create_bspline k y (some xs) c f e = none) := by
  constructor
  · intro hne hlen
    have hxe : xs.isEmpty = false := by simpa [List.isEmpty_iff] using hne
    simp [create_bspline, hxe, hlen]
  · intro hk
    simp only [create_bspline]
    split_ifs <;> first | rfl | omega

/-- C3 witness. -/
theorem C3_amended_rejections_witness :
    (create_bspline 0 [1, 2] (some [1, 2, 3]) true true true = none) ∧
      (create_bspline (-1) [1, 2] (some [1, 2]) true true true = none) :=
  ⟨(C3_amended_rejections 0 [1, 2] [1, 2, 3] true true true).1
      (by decide) (by decide),
    (C3_amended_rejections (-1) [1, 2] [1, 2] true true true).2 (by decide)⟩

/-! ### C2: the clamp-extension ghost control points -/

/-- Modelled from the spec: the clamp-extension control points as §4.3 words
them, with ghost samples `y[0] + i*(dy_start/dx_start)` for `i = -rep..-1`
and `y[-1] + i*(dy_end/dx_end)` for `i = 1..rep` — the boundary slopes
divided by the boundary parameter spacings. -/
def specClampedCP (k : ℤ) (dx_start dx_end : ℚ) (y : List ℚ) : List ℚ :=
  let dy_start := y.getD 1 0 - y.getD 0 0
  let dy_end := y.getD (y.length - 1) 0 - y.getD (y.length - 2) 0
  backSteps (y.getD 0 0) (dy_start / dx_start) (clampRep k) ++ y ++
    fwdSteps (y.getD (y.length - 1) 0) (dy_end / dx_end) (clampRep k)

/-- C2 counterexample: with `k = 2`, `y = [0,2,4]`, `x = [0,2,4]` (so
`dx_start = dx_end = 2`) the produced control points differ from the spec's
formula: the code multiplies the raw slope `dy_start`, not
`dy_start/dx_start`. -/
theorem C2_counterexample :
    ∃ s, create_bspline 2 [0, 2, 4] (some [0, 2, 4]) true true true = some s ∧
      s.controlPoints ≠ specClampedCP 2 2 2 [0, 2, 4] := by
  refine ⟨_, create_bspline_eq_some 2 [0, 2, 4] [0, 2, 4] true true true
    (by decide) (by decide) (by decide), ?_⟩
  show clampedCP 2 true [0, 2, 4] ≠ specClampedCP 2 2 2 [0, 2, 4]
  have h1 : clampedCP 2 true [0, 2, 4] = [-2, 0, 2, 4, 6] := by
    norm_num [clampedCP, backSteps_eq_map, fwdSteps_eq_map,
      show clampRep 2 = 1 from rfl, show List.range 1 = [0] from rfl]
  have h2 : specClampedCP 2 2 2 [0, 2, 4] = [-1, 0, 2, 4, 5] := by
    norm_num [specClampedCP, backSteps_eq_map, fwdSteps_eq_map,
      show clampRep 2 = 1 from rfl, show List.range 1 = [0] from rfl]
  rw [h1, h2]
  intro h
  exact absurd (List.head_eq_of_cons_eq h) (by norm_num)

/-- C2 (amended): when `clamped` is true the control points are `rep` ghost
samples `y[0] + i*dy_start` for `i = -rep..-1`, the original samples, and
`rep` ghost samples `y[n-1] + i*dy_end` for `i = 1..rep`, where
`dy_start = y[1]-y[0]` and `dy_end = y[n-1]-y[n-2]` are the raw boundary
slopes (not divided by the parameter spacings). -/
theorem C2_amended_ghost_control_points (k : ℤ) (y x : List ℚ) (f e : Bool)
    (hk : 0 ≤ k) (hn : 2 ≤ y.length) (hlen : x.length = y.length) :
    ∃ s, create_bspline k y (some x) true f e = some s ∧
      s.controlPoints =
        (List.range (clampRep k)).map
            (fun i : ℕ => y.getD 0 0 +
              (((i : ℤ) - clampRep k : ℤ) : ℚ) * (y.getD 1 0 - y.getD 0 0)) ++
          y ++
          (List.range (clampRep k)).map
            (fun i : ℕ => y.getD (y.length - 1) 0 +
              (((i : ℤ) + 1 : ℤ) : ℚ) *
                (y.getD (y.length - 1) 0 - y.getD (y.length - 2) 0)) := by
  refine ⟨_, create_bspline_eq_some k y x true f e hk (hlen ▸ hn) hlen, ?_⟩
  show clampedCP k true y = _
  simp only [clampedCP, if_true, backSteps_eq_map, fwdSteps_eq_map]

/-- C2 witness. -/
theorem C2_amended_ghost_control_points_witness :
    ∃ s, create_bspline 2 [0, 2, 4] (some [0, 1, 2]) true true true = some s ∧
      s.controlPoints = [-2, 0, 2, 4, 6] := by
  obtain ⟨s, h1, h2⟩ := C2_amended_ghost_control_points 2 [0, 2, 4] [0, 1, 2]
    true true (by decide) (by decide) (by decide)
  refine ⟨s, h1, ?_⟩
  rw [h2]
  norm_num [show clampRep 2 = 1 from rfl, show List.range 1 = [0] from rfl]

/-! ### C4: the shift corrector -/

theorem backSteps_eq_claim_map (h d : ℚ) (m : ℕ) :
    backSteps h d m =
      (List.range m).map (fun i : ℕ => h - (((m : ℤ) - i : ℤ) : ℚ) * d) := by
  rw [backSteps_eq_map]
  refine congrArg₂ List.map ?_ rfl
  funext i
  push_cast
  ring

theorem mids_eq_zipWith (xs : List ℚ) :
    mids xs = List.zipWith (fun a b => (1 / 2) * a + (1 / 2) * b) xs xs.tail := by
  induction xs with
  | nil => simp [mids]
  | cons a t ih =>
    cases t with
    | nil => simp [mids]
    | cons b u =>
      rw [mids, ih]
      simp only [List.tail_cons, List.zipWith_cons_cons]
      congr 1
      ring

/-- C4: with `fix_shift = true` the shift corrector uses
`left_shift = 1 + floor(max(k-1,0)/2)`, prepends the backward-extrapolated
parameters `x[0] - left_shift*dx_start, …, x[0] - dx_start`, and — when
`k > 0` is even — prepends one synthetic point at `x_prefixed[0] - (1/2)*dx_start`
and replaces the rest by the pairwise midpoints `(1/2)x[i] + (1/2)x[i+1]` of
the extended sequence; the sample sequence is never edited by this step. -/
theorem C4_shift_corrector (k : ℤ) (y x : List ℚ) (e : Bool)
    (hk : 0 ≤ k) (hn : 2 ≤ y.length) (hlen : x.length = y.length) :
    ((leftShift k true : ℤ) = 1 + max (k - 1) 0 / 2 ∧
      shiftedX k true (dxStart x) x =
        (let pre := (List.range (leftShift k true)).map
            (fun i : ℕ =>
              x.getD 0 0 - (((leftShift k true : ℤ) - i : ℤ) : ℚ) * dxStart x) ++ x
         if 0 < k ∧ k % 2 = 0 then
           (pre.getD 0 0 - (1 / 2) * dxStart x) ::
             List.zipWith (fun a b => (1 / 2) * a + (1 / 2) * b) pre pre.tail
         else pre)) ∧
      ∃ s, create_bspline k y (some x) false true e = some s ∧
        s.controlPoints = y := by
  refine ⟨⟨?_, ?_⟩, ?_⟩
  · simp only [leftShift, if_true]
    omega
  · simp only [shiftedX, if_true, backSteps_eq_claim_map, mids_eq_zipWith]
    by_cases hke : 0 < k ∧ k % 2 = 0
    · rw [if_pos hke, if_pos hke]
      congr 1
      ring
    · rw [if_neg hke, if_neg hke]
  · exact ⟨_, create_bspline_eq_some k y x false true e hk (hlen ▸ hn) hlen, rfl⟩

/-- C4 witness. -/
theorem C4_shift_corrector_witness :
    (((leftShift 2 true : ℤ) = 1 + max (2 - 1) 0 / 2 ∧
      shiftedX 2 true (dxStart [0, 1, 2]) [0, 1, 2] =
        (let pre := (List.range (leftShift 2 true)).map
            (fun i : ℕ =>
              ([0, 1, 2] : List ℚ).getD 0 0 -
                (((leftShift 2 true : ℤ) - i : ℤ) : ℚ) * dxStart [0, 1, 2]) ++
            [0, 1, 2]
         if 0 < (2 : ℤ) ∧ (2 : ℤ) % 2 = 0 then
           (pre.getD 0 0 - (1 / 2) * dxStart [0, 1, 2]) ::
             List.zipWith (fun a b => (1 / 2) * a + (1 / 2) * b) pre pre.tail
         else pre)) ∧
      ∃ s, create_bspline 2 [4, 0, 3] (some [0, 1, 2]) false true true = some s ∧
        s.controlPoints = [4, 0, 3]) :=
  C4_shift_corrector 2 [4, 0, 3] [0, 1, 2] true (by decide) (by decide) (by decide)

/-! ### C8: vector broadcast equivalence -/

/-- elementwise `np.ndarray` subtraction of vector samples. -/
def vsub (a b : List ℚ) : List ℚ := List.zipWith (· - ·) a b

/-- elementwise `np.ndarray` addition of vector samples. -/
def vadd (a b : List ℚ) : List ℚ := List.zipWith (· + ·) a b

/-- scalar times vector sample. -/
def smul (c : ℚ) (v : List ℚ) : List ℚ := v.map (fun t => c * t)

/-- lines 47–53 for vector samples: the rows of
`y0 + np.outer(np.linspace(-m,-1,m), dy)`. -/
def backStepsVec (h d : List ℚ) (m : ℕ) : List (List ℚ) :=
  (intSteps (-(m : ℤ)) m).map (fun s => vadd h (smul s d))

/-- lines 47–53 for vector samples: the rows of
`y_last + np.outer(np.linspace(1,m,m), dy)`. -/
def fwdStepsVec (h d : List ℚ) (m : ℕ) : List (List ℚ) :=
  (intSteps 1 m).map (fun s => vadd h (smul s d))

/-- lines 44–55, the vector-sample branch of `my_outer`: control points for
vector-valued `y_values`. -/
def clampedCPVec (k : ℤ) (clamped : Bool) (y : List (List ℚ)) : List (List ℚ) :=
  if clamped then
    let dy_start := vsub (y.getD 1 []) (y.getD 0 [])
    let dy_end := vsub (y.getD (y.length - 1) []) (y.getD (y.length - 2) [])
    backStepsVec (y.getD 0 []) dy_start (clampRep k) ++ y ++
      fwdStepsVec (y.getD (y.length - 1) []) dy_end (clampRep k)
  else y

/-- the spline tuple for vector-valued samples. -/
structure SplineVec where
  knots : List ℚ
  controlPoints : List (List ℚ)
  degree : ℕ
  extrapolate : Bool
deriving DecidableEq, Repr

/-- `create_bspline` on vector-valued samples (the `isinstance` branch of
`my_outer`, line 48–49); the parameter pipeline is identical to the scalar
case. -/
def create_bspline_vec (k : ℤ) (y_values : List (List ℚ))
    (x_values : Option (List ℚ) := none) (clamped : Bool := true)
    (fix_shift : Bool := true) (extrapolate : Bool := true) : Option SplineVec :=
  let x := match x_values with
    | none => defaultParams y_values.length
    | some xs => if xs.isEmpty then defaultParams y_values.length else xs
  if x.length ≠ y_values.length then none
  else if x.length < 2 then none
  else
    let cp := clampedCPVec k clamped y_values
    let b := knotsBase k clamped fix_shift x
    if b.length ≠ cp.length + leftShift k fix_shift then none
    else if k < 0 then none
    else if tailCount k fix_shift < 0 then none
    else some ⟨finalKnots k clamped fix_shift x, cp, k.toNat, extrapolate⟩

theorem backStepsVec_length (h d : List ℚ) (m : ℕ) :
    (backStepsVec h d m).length = m := by
  rw [backStepsVec, List.length_map, intSteps_length]

theorem fwdStepsVec_length (h d : List ℚ) (m : ℕ) :
    (fwdStepsVec h d m).length = m := by
  rw [fwdStepsVec, List.length_map, intSteps_length]

theorem clampedCPVec_length (k : ℤ) (c : Bool) (y : List (List ℚ)) :
    (clampedCPVec k c y).length =
      y.length + (if c then 2 * clampRep k else 0) := by
  cases c <;> simp [clampedCPVec, backStepsVec_length, fwdStepsVec_length] <;> omega

/-- vector analogue of `create_bspline_eq_some`. -/
theorem create_bspline_vec_eq_some (k : ℤ) (y : List (List ℚ)) (x : List ℚ)
    (c f e : Bool) (hk : 0 ≤ k) (hn : 2 ≤ x.length) (hlen : x.length = y.length) :
    create_bspline_vec k y (some x) c f e =
      some ⟨finalKnots k c f x, clampedCPVec k c y, k.toNat, e⟩ := by
  have hx : x ≠ [] := by
    intro h; rw [h] at hn; simp at hn
  have hxe : x.isEmpty = false := by
    simpa [List.isEmpty_iff] using hx
  have hb : (knotsBase k c f x).length =
      (clampedCPVec k c y).length + leftShift k f := by
    rw [knotsBase_length k c f x hx, clampedCPVec_length]
    omega
  have hcnt : ¬ tailCount k f < 0 := not_lt.mpr (tailCount_nonneg k f hk)
  have hny : ¬ (y.length < 2) := Nat.not_lt.mpr (hlen ▸ hn)
  simp [create_bspline_vec, hxe, hlen, hb, hcnt, not_lt.mpr hk, hny]

theorem getD_map_of_lt (y : List ℚ) (f : ℚ → List ℚ) (i : ℕ) (hi : i < y.length) :
    (y.map f).getD i [] = f (y.getD i 0) := by
  induction y generalizing i with
  | nil => simp at hi
  | cons a t ih =>
    cases i with
    | zero => simp
    | succ j =>
      simp only [List.map_cons, List.getD_cons_succ]
      exact ih j (by simpa using hi)

theorem backStepsVec_singleton (h d : ℚ) (m : ℕ) :
    backStepsVec [h] [d] m = (backSteps h d m).map (fun v => [v]) := by
  rw [backStepsVec, backSteps, List.map_map]
  refine congrArg₂ List.map ?_ rfl
  funext s
  rfl

theorem fwdStepsVec_singleton (h d : ℚ) (m : ℕ) :
    fwdStepsVec [h] [d] m = (fwdSteps h d m).map (fun v => [v]) := by
  rw [fwdStepsVec, fwdSteps, List.map_map]
  refine congrArg₂ List.map ?_ rfl
  funext s
  rfl

theorem clampedCPVec_map_singleton (k : ℤ) (c : Bool) (y : List ℚ)
    (hn : 2 ≤ y.length) :
    clampedCPVec k c (y.map (fun v => [v])) =
      (clampedCP k c y).map (fun v => [v]) := by
  cases c with
  | false => simp [clampedCPVec, clampedCP]
  | true =>
    have hlen : (y.map (fun v => [v])).length = y.length := List.length_map y _
    have h0 : (y.map (fun v => [v])).getD 0 [] = [y.getD 0 0] :=
      getD_map_of_lt y _ 0 (by omega)
    have h1 : (y.map (fun v => [v])).getD 1 [] = [y.getD 1 0] :=
      getD_map_of_lt y _ 1 (by omega)
    have h2 : (y.map (fun v => [v])).getD (y.length - 1) [] =
        [y.getD (y.length - 1) 0] := getD_map_of_lt y _ _ (by omega)
    have h3 : (y.map (fun v => [v])).getD (y.length - 2) [] =
        [y.getD (y.length - 2) 0] := getD_map_of_lt y _ _ (by omega)
    simp only [clampedCPVec, clampedCP, if_true, hlen, h0, h1, h2, h3]
    rw [show vsub [y.getD 1 0] [y.getD 0 0] = [y.getD 1 0 - y.getD 0 0] from rfl,
      show vsub [y.getD (y.length - 1) 0] [y.getD (y.length - 2) 0] =
        [y.getD (y.length - 1) 0 - y.getD (y.length - 2) 0] from rfl,
      backStepsVec_singleton, fwdStepsVec_singleton, List.map_append,
      List.map_append]

/-- C8: for scalar samples `y`, running `create_bspline` on the lifted form
`[[v] for v in y]` produces the same knot vector, and control points that are
the length-1 vector wrappings of the scalar run's control points. -/
theorem C8_vector_broadcast (k : ℤ) (y x : List ℚ) (c f e : Bool)
    (hk : 0 ≤ k) (hn : 2 ≤ y.length) (hlen : x.length = y.length) :
    ∃ (s : Spline) (sv : SplineVec),
      create_bspline k y (some x) c f e = some s ∧
      create_bspline_vec k (y.map (fun v => [v])) (some x) c f e = some sv ∧
      sv.knots = s.knots ∧
      sv.controlPoints = s.controlPoints.map (fun v => [v]) := by
  have hn' : 2 ≤ x.length := hlen ▸ hn
  have hlenv : x.length = (y.map (fun v => [v])).length := by
    rw [List.length_map]; exact hlen
  refine ⟨_, _, create_bspline_eq_some k y x c f e hk hn' hlen,
    create_bspline_vec_eq_some k (y.map (fun v => [v])) x c f e hk hn' hlenv,
    rfl, ?_⟩
  exact clampedCPVec_map_singleton k c y hn

/-- C8 witness. -/
theorem C8_vector_broadcast_witness :
    ∃ (s : Spline) (sv : SplineVec),
      create_bspline 3 [4, 0, 3] (some [0, 1, 2]) true true true = some s ∧
      create_bspline_vec 3 ([(4 : ℚ), 0, 3].map (fun v => [v]))
          (some [0, 1, 2]) true true true = some sv ∧
      sv.knots = s.knots ∧
      sv.controlPoints = s.controlPoints.map (fun v => [v]) :=
  C8_vector_broadcast 3 [4, 0, 3] [0, 1, 2] true true true
    (by decide) (by decide) (by decide)

/-! ### Strict ascent of the produced knot vector -/

theorem chain'_lt_map_range {f : ℕ → ℚ} (hf : ∀ i : ℕ, f i < f (i + 1)) (m : ℕ) :
    List.Chain' (· < ·) ((List.range m).map f) := by
  cases m with
  | zero => simp
  | succ n =>
    rw [List.chain'_map]
    exact (List.chain'_range_succ _ n).mpr fun i _ => hf i

theorem chain'_backSteps (h d : ℚ) (m : ℕ) (hd : 0 < d) :
    List.Chain' (· < ·) (backSteps h d m) := by
  rw [backSteps_eq_map]
  refine chain'_lt_map_range (fun i => ?_) m
  have hstep : ((i : ℚ) - m) * d < (((i : ℚ) + 1) - m) * d :=
    mul_lt_mul_of_pos_right (by linarith) hd
  push_cast
  linarith

theorem chain'_fwdSteps (h d : ℚ) (m : ℕ) (hd : 0 < d) :
    List.Chain' (· < ·) (fwdSteps h d m) := by
  rw [fwdSteps_eq_map]
  refine chain'_lt_map_range (fun i => ?_) m
  have hstep : ((i : ℚ) + 1) * d < (((i : ℚ) + 1) + 1) * d :=
    mul_lt_mul_of_pos_right (by linarith) hd
  push_cast
  linarith

theorem getLast?_backSteps (h d : ℚ) (m : ℕ) (hm : 0 < m) :
    (backSteps h d m).getLast? = some (h - d) := by
  obtain ⟨n, rfl⟩ := Nat.exists_eq_succ_of_ne_zero (Nat.pos_iff_ne_zero.mp hm)
  rw [backSteps_eq_map, List.range_succ, List.map_append, List.map_singleton,
    List.getLast?_append_of_ne_nil _ (by simp), List.getLast?_singleton]
  congr 1
  push_cast
  ring

theorem head?_fwdSteps (h d : ℚ) (m : ℕ) (hm : 0 < m) :
    (fwdSteps h d m).head? = some (h + d) := by
  obtain ⟨n, rfl⟩ := Nat.exists_eq_succ_of_ne_zero (Nat.pos_iff_ne_zero.mp hm)
  rw [fwdSteps_eq_map, List.range_succ_eq_map, List.map_cons, List.head?_cons]
  congr 1
  push_cast
  ring

theorem head?_eq_getD (x : List ℚ) (hne : x ≠ []) :
    x.head? = some (x.getD 0 0) := by
  cases x with
  | nil => exact absurd rfl hne
  | cons a t => rfl

theorem getLast?_eq_getD (x : List ℚ) (hne : x ≠ []) :
    x.getLast? = some (x.getD (x.length - 1) 0) := by
  have hlen : x.length - 1 < x.length := by
    have := List.length_pos.mpr hne
    omega
  rw [List.getLast?_eq_getElem?, List.getElem?_eq_getElem hlen,
    List.getD_eq_getElem x 0 hlen]

theorem chain'_backSteps_append (x : List ℚ) (d : ℚ) (m : ℕ) (hd : 0 < d)
    (hx : List.Chain' (· < ·) x) (hne : x ≠ []) :
    List.Chain' (· < ·) (backSteps (x.getD 0 0) d m ++ x) := by
  refine (chain'_backSteps _ d m hd).append hx ?_
  intro a ha b hb
  rcases Nat.eq_zero_or_pos m with hm | hm
  · subst hm
    simp [backSteps, intSteps] at ha
  · rw [getLast?_backSteps _ d m hm] at ha
    rw [head?_eq_getD x hne] at hb
    simp only [Option.mem_def, Option.some_inj] at ha hb
    subst ha
    subst hb
    linarith

theorem chain'_append_fwdSteps (x : List ℚ) (h d : ℚ) (m : ℕ) (hd : 0 < d)
    (hx : List.Chain' (· < ·) x) (hlast : x.getLast? = some h) :
    List.Chain' (· < ·) (x ++ fwdSteps h d m) := by
  refine hx.append (chain'_fwdSteps h d m hd) ?_
  intro a ha b hb
  rcases Nat.eq_zero_or_pos m with hm | hm
  · subst hm
    simp [fwdSteps, intSteps] at hb
  · rw [hlast] at ha
    rw [head?_fwdSteps h d m hm] at hb
    simp only [Option.mem_def, Option.some_inj] at ha hb
    subst ha
    subst hb
    linarith

theorem chain'_mids (xs : List ℚ) (h : List.Chain' (· < ·) xs) :
    List.Chain' (· < ·) (mids xs) := by
  induction xs with
  | nil => simp [mids]
  | cons a t ih =>
    cases t with
    | nil => simp [mids]
    | cons b u =>
      obtain ⟨hab, hbt⟩ := List.chain'_cons.mp h
      rw [mids]
      refine List.chain'_cons'.mpr ⟨?_, ih hbt⟩
      intro z hz
      cases u with
      | nil => simp [mids] at hz
      | cons c v =>
        have hbc : b < c := (List.chain'_cons.mp hbt).1
        rw [mids] at hz
        simp only [List.head?_cons, Option.mem_def, Option.some_inj] at hz
        subst hz
        linarith

theorem chain'_evenCorr (x1 : List ℚ) (d : ℚ) (hd : 0 < d)
    (h1 : List.Chain' (· < ·) x1) :
    List.Chain' (· < ·) ((x1.getD 0 0 - d * (1 / 2)) :: mids x1) := by
  refine List.chain'_cons'.mpr ⟨?_, chain'_mids x1 h1⟩
  intro z hz
  cases x1 with
  | nil => simp [mids] at hz
  | cons a t =>
    cases t with
    | nil => simp [mids] at hz
    | cons b u =>
      have hab : a < b := (List.chain'_cons.mp h1).1
      rw [mids] at hz
      simp only [List.head?_cons, Option.mem_def, Option.some_inj] at hz
      subst hz
      simp only [List.getD_cons_zero]
      linarith

theorem chain'_shiftedX (k : ℤ) (f : Bool) (d : ℚ) (x : List ℚ) (hd : 0 < d)
    (hx : List.Chain' (· < ·) x) (hne : x ≠ []) :
    List.Chain' (· < ·) (shiftedX k f d x) := by
  cases f with
  | false => exact hx
  | true =>
    have h1 : List.Chain' (· < ·)
        (backSteps (x.getD 0 0) d (leftShift k true) ++ x) :=
      chain'_backSteps_append x d (leftShift k true) hd hx hne
    by_cases hke : 0 < k ∧ k % 2 = 0
    · simp only [shiftedX, if_true, if_pos hke]
      exact chain'_evenCorr _ d hd h1
    · simp only [shiftedX, if_true, if_neg hke]
      exact h1

theorem chain'_clampedX (k : ℤ) (c : Bool) (ds de : ℚ) (x : List ℚ)
    (hds : 0 < ds) (hde : 0 < de) (hx : List.Chain' (· < ·) x) (hne : x ≠ []) :
    List.Chain' (· < ·) (clampedX k c ds de x) := by
  cases c with
  | false => exact hx
  | true =>
    simp only [clampedX, if_true]
    have h1 : List.Chain' (· < ·) (backSteps (x.getD 0 0) ds (clampRep k) ++ x) :=
      chain'_backSteps_append x ds (clampRep k) hds hx hne
    refine chain'_append_fwdSteps _ _ de (clampRep k) hde h1 ?_
    rw [List.getLast?_append_of_ne_nil _ hne]
    exact getLast?_eq_getD x hne

theorem getD_lt_getD_of_chain' (x : List ℚ) (hx : List.Chain' (· < ·) x)
    {i j : ℕ} (hij : i < j) (hj : j < x.length) :
    x.getD i 0 < x.getD j 0 := by
  have hp := List.chain'_iff_pairwise.mp hx
  have hi : i < x.length := lt_trans hij hj
  rw [List.getD_eq_getElem x 0 hi, List.getD_eq_getElem x 0 hj]
  exact List.pairwise_iff_getElem.mp hp i j hi hj hij

theorem getD_le_getD_of_chain' (x : List ℚ) (hx : List.Chain' (· < ·) x)
    {i j : ℕ} (hij : i ≤ j) (hj : j < x.length) :
    x.getD i 0 ≤ x.getD j 0 := by
  rcases Nat.lt_or_ge i j with h | h
  · exact le_of_lt (getD_lt_getD_of_chain' x hx h hj)
  · have : i = j := le_antisymm hij h
    rw [this]

theorem dxStart_pos (x : List ℚ) (hx : List.Chain' (· < ·) x)
    (hn : 2 ≤ x.length) : 0 < dxStart x := by
  have h01 : x.getD 0 0 < x.getD 1 0 :=
    getD_lt_getD_of_chain' x hx (by omega) (by omega)
  rw [dxStart]
  linarith

theorem dxEnd_pos (x : List ℚ) (hx : List.Chain' (· < ·) x)
    (hn : 2 ≤ x.length) : 0 < dxEnd x := by
  have h01 : x.getD (x.length - 2) 0 < x.getD (x.length - 1) 0 :=
    getD_lt_getD_of_chain' x hx (by omega) (by omega)
  rw [dxEnd]
  linarith

theorem chain'_knotsBase (k : ℤ) (c f : Bool) (x : List ℚ)
    (hx : List.Chain' (· < ·) x) (hn : 2 ≤ x.length) :
    List.Chain' (· < ·) (knotsBase k c f x) := by
  have hne : x ≠ [] := by intro h; rw [h] at hn; simp at hn
  have hds := dxStart_pos x hx hn
  have hde := dxEnd_pos x hx hn
  have hsh := chain'_shiftedX k f (dxStart x) x hds hx hne
  have hshne : shiftedX k f (dxStart x) x ≠ [] := by
    have hlen := shiftedX_length k f (dxStart x) x hne
    intro h
    rw [h] at hlen
    simp at hlen
    omega
  exact chain'_clampedX k c _ _ _ hds hde hsh hshne

theorem knotsBase_ne_nil (k : ℤ) (c f : Bool) (x : List ℚ) (hne : x ≠ []) :
    knotsBase k c f x ≠ [] := by
  have hlen := knotsBase_length k c f x hne
  intro h
  rw [h] at hlen
  simp at hlen
  have := List.length_pos.mpr hne
  omega

theorem chain'_finalKnots (k : ℤ) (c f : Bool) (x : List ℚ)
    (hx : List.Chain' (· < ·) x) (hn : 2 ≤ x.length) :
    List.Chain' (· < ·) (finalKnots k c f x) := by
  have hne : x ≠ [] := by intro h; rw [h] at hn; simp at hn
  have hb := chain'_knotsBase k c f x hx hn
  have hbne := knotsBase_ne_nil k c f x hne
  simp only [finalKnots]
  exact chain'_append_fwdSteps _ _ _ _ (dxEnd_pos x hx hn) hb
    (getLast?_eq_getD _ hbne)

/-- C5: for every valid input with a strictly ascending parameter sequence,
under every combination of the `clamped` and `fix_shift` flags and every
degree `k ≥ 0` — including even degrees with non-uniform spacing where the
midpoint-averaging correction runs — the produced knot vector is
non-decreasing (in fact the underlying chain is strict). -/
theorem C5_knots_nondecreasing (k : ℤ) (y x : List ℚ) (c f e : Bool)
    (hk : 0 ≤ k) (hn : 2 ≤ y.length) (hlen : x.length = y.length)
    (hasc : x.Chain' (· < ·)) :
    ∃ s : Spline, create_bspline k y (some x) c f e = some s ∧
      s.knots.Chain' (· ≤ ·) := by
  have hn' : 2 ≤ x.length := hlen ▸ hn
  refine ⟨_, create_bspline_eq_some k y x c f e hk hn' hlen, ?_⟩
  exact (chain'_finalKnots k c f x hasc hn').imp fun a b => le_of_lt

/-- C5 witness: an even degree with non-uniform parameter spacing. -/
theorem C5_knots_nondecreasing_witness :
    ∃ s : Spline,
      create_bspline 2 [4, 0, 3, 1] (some [0, 1, 5, 6]) true true true = some s ∧
      s.knots.Chain' (· ≤ ·) :=
  C5_knots_nondecreasing 2 [4, 0, 3, 1] [0, 1, 5, 6] true true true
    (by decide) (by decide) (by decide) (by norm_num [List.chain'_cons])

/-! ### C7: where the evaluation domain encloses the parameter range -/

theorem getD_map_range {f : ℕ → ℚ} {m i : ℕ} (hi : i < m) (d : ℚ) :
    ((List.range m).map f).getD i d = f i := by
  rw [List.getD_eq_getElem _ _ (by simpa using hi), List.getElem_map,
    List.getElem_range]

theorem getD_backSteps (h d : ℚ) (m i : ℕ) (hi : i < m) :
    (backSteps h d m).getD i 0 = h + (((i : ℤ) - m : ℤ) : ℚ) * d := by
  rw [backSteps_eq_map]
  exact getD_map_range hi 0

theorem getD_fwdSteps (h d : ℚ) (m i : ℕ) (hi : i < m) :
    (fwdSteps h d m).getD i 0 = h + (((i : ℤ) + 1 : ℤ) : ℚ) * d := by
  rw [fwdSteps_eq_map]
  exact getD_map_range hi 0

theorem getD_mids (xs : List ℚ) (i : ℕ) (hi : i + 1 < xs.length) :
    (mids xs).getD i 0 = xs.getD i 0 / 2 + xs.getD (i + 1) 0 / 2 := by
  induction xs generalizing i with
  | nil => simp at hi
  | cons a t ih =>
    cases t with
    | nil => simp at hi
    | cons b u =>
      cases i with
      | zero => simp [mids]
      | succ j =>
        rw [mids]
        simp only [List.getD_cons_succ]
        exact ih j (by simpa using hi)

/-- with `fix_shift = true`, the shifted parameter value at index `left_shift`
is at most `x[0]` (it equals `x[0]`, or `x[0] - dx_start/2` after the
even-degree correction). -/
theorem shiftedX_getD_ls_le (k : ℤ) (ds : ℚ) (x : List ℚ) (hne : x ≠ [])
    (hds : 0 < ds) :
    (shiftedX k true ds x).getD (leftShift k true) 0 ≤ x.getD 0 0 := by
  have hls1 : 1 ≤ leftShift k true := by simp [leftShift]
  have hxlen : 0 < x.length := List.length_pos.mpr hne
  by_cases hke : 0 < k ∧ k % 2 = 0
  · simp only [shiftedX, if_true, if_pos hke]
    obtain ⟨m, hm⟩ : ∃ m, leftShift k true = m + 1 :=
      ⟨leftShift k true - 1, by omega⟩
    rw [hm, List.getD_cons_succ]
    have hx1len : (backSteps (x.getD 0 0) ds (m + 1) ++ x).length =
        (m + 1) + x.length := by
      rw [List.length_append, backSteps_length]
    rw [getD_mids _ m (by rw [hx1len]; omega)]
    have h1 : (backSteps (x.getD 0 0) ds (m + 1) ++ x).getD m 0 =
        x.getD 0 0 - ds := by
      rw [List.getD_append _ _ 0 _ (by rw [backSteps_length]; omega),
        getD_backSteps _ _ _ _ (by omega),
        show ((m : ℤ) - ((m + 1 : ℕ) : ℤ) : ℤ) = -1 by push_cast; ring]
      push_cast
      ring
    have h2 : (backSteps (x.getD 0 0) ds (m + 1) ++ x).getD (m + 1) 0 =
        x.getD 0 0 := by
      rw [List.getD_append_right _ _ 0 _ (by rw [backSteps_length]),
        backSteps_length, Nat.sub_self]
    rw [h1, h2]
    linarith
  · simp only [shiftedX, if_true, if_neg hke]
    rw [List.getD_append_right _ _ 0 _ (by rw [backSteps_length]),
      backSteps_length, Nat.sub_self]

/-- C7 counterexample: with `clamped = true` but `fix_shift = false`, at
`k = 1`, `y = x = [0,1,2]`, the knot vector is `[0,1,2,3,4]` and
`knots[k] = 1 > x[0] = 0`: the claimed enclosure fails for this flag
combination. -/
theorem C7_counterexample :
    ∃ s, create_bspline 1 [0, 1, 2] (some [0, 1, 2]) true false true = some s ∧
      ¬ s.knots.getD 1 0 ≤ ([0, 1, 2] : List ℚ).getD 0 0 := by
  refine ⟨_, create_bspline_eq_some 1 [0, 1, 2] [0, 1, 2] true false true
    (by decide) (by decide) (by decide), ?_⟩
  show ¬ (finalKnots 1 true false [0, 1, 2]).getD 1 0 ≤ _
  have hknots : finalKnots 1 true false [0, 1, 2] = [0, 1, 2, 3, 4] := by
    norm_num [finalKnots, knotsBase, clampedX, shiftedX, clampRep, tailCount,
      leftShift, dxStart, dxEnd, backSteps_eq_map, fwdSteps_eq_map,
      show List.range 0 = [] from rfl,
      show Int.toNat 2 = 2 from rfl,
      show List.range 2 = [0, 1] from rfl]
  rw [hknots]
  norm_num

/-- with `fix_shift = true` and even `k > 0`, the last shifted parameter is
the midpoint of the last two original parameters. -/
theorem shiftedX_getD_last_even (k : ℤ) (ds : ℚ) (x : List ℚ)
    (hn : 2 ≤ x.length) (hke : 0 < k ∧ k % 2 = 0) :
    (shiftedX k true ds x).getD (x.length + leftShift k true - 1) 0 =
      x.getD (x.length - 2) 0 / 2 + x.getD (x.length - 1) 0 / 2 := by
  have hls1 : 1 ≤ leftShift k true := by simp [leftShift]
  simp only [shiftedX, if_true, if_pos hke]
  obtain ⟨j, hj⟩ : ∃ j, x.length + leftShift k true - 1 = j + 1 :=
    ⟨x.length + leftShift k true - 2, by omega⟩
  have hx1len : (backSteps (x.getD 0 0) ds (leftShift k true) ++ x).length =
      leftShift k true + x.length := by
    rw [List.length_append, backSteps_length]
  rw [hj, List.getD_cons_succ, getD_mids _ j (by rw [hx1len]; omega),
    List.getD_append_right _ _ 0 _ (by rw [backSteps_length]; omega),
    backSteps_length,
    List.getD_append_right _ _ 0 _ (by rw [backSteps_length]; omega),
    backSteps_length,
    show j - leftShift k true = x.length - 2 from by omega,
    show j + 1 - leftShift k true = x.length - 1 from by omega]

/-- with `fix_shift = true` and `k` odd or zero, the last shifted parameter
is the last original parameter. -/
theorem shiftedX_getD_last_odd (k : ℤ) (ds : ℚ) (x : List ℚ)
    (hn : 2 ≤ x.length) (hke : ¬ (0 < k ∧ k % 2 = 0)) :
    (shiftedX k true ds x).getD (x.length + leftShift k true - 1) 0 =
      x.getD (x.length - 1) 0 := by
  have hls1 : 1 ≤ leftShift k true := by simp [leftShift]
  simp only [shiftedX, if_true, if_neg hke]
  rw [List.getD_append_right _ _ 0 _ (by rw [backSteps_length]; omega),
    backSteps_length,
    show x.length + leftShift k true - 1 - leftShift k true = x.length - 1
      from by omega]

/-- C7 (amended): with the default flags `clamped = true` and
`fix_shift = true` (the counterexample shows other combinations fail), every
valid input yields a knot vector with `knots[k] ≤ x[0]` and
`knots[len-k-1] ≥ x[n-1]`: the evaluation domain encloses the original
parameter range. -/
theorem C7_amended_domain_encloses (k : ℤ) (y x : List ℚ) (e : Bool)
    (hk : 0 ≤ k) (hn : 2 ≤ y.length) (hlen : x.length = y.length)
    (hasc : x.Chain' (· < ·)) :
    ∃ s : Spline, create_bspline k y (some x) true true e = some s ∧
      s.knots.getD k.toNat 0 ≤ x.getD 0 0 ∧
      x.getD (x.length - 1) 0 ≤
        s.knots.getD (s.knots.length - k.toNat - 1) 0 := by
  have hn' : 2 ≤ x.length := hlen ▸ hn
  have hne : x ≠ [] := by intro h; rw [h] at hn'; simp at hn'
  have hds := dxStart_pos x hasc hn'
  have hde := dxEnd_pos x hasc hn'
  have hKc := chain'_finalKnots k true true x hasc hn'
  have hs2len : (shiftedX k true (dxStart x) x).length =
      x.length + leftShift k true := shiftedX_length k true _ x hne
  have hKdef : finalKnots k true true x =
      knotsBase k true true x ++
        fwdSteps ((knotsBase k true true x).getD
            ((knotsBase k true true x).length - 1) 0)
          (dxEnd x) (tailCount k true).toNat := rfl
  have hbdef : knotsBase k true true x =
      (backSteps ((shiftedX k true (dxStart x) x).getD 0 0) (dxStart x)
            (clampRep k) ++
          shiftedX k true (dxStart x) x) ++
        fwdSteps ((shiftedX k true (dxStart x) x).getD
            ((shiftedX k true (dxStart x) x).length - 1) 0)
          (dxEnd x) (clampRep k) := rfl
  have hbL : (knotsBase k true true x).length =
      x.length + leftShift k true + 2 * clampRep k := by
    rw [knotsBase_length k true true x hne]
    simp
  have hKlen : (finalKnots k true true x).length =
      (knotsBase k true true x).length + (tailCount k true).toNat := by
    rw [hKdef, List.length_append, fwdSteps_length]
  have hls1 : 1 ≤ leftShift k true := by simp [leftShift]
  have hlscnt : leftShift k true + (tailCount k true).toNat = k.toNat + 1 := by
    simp only [tailCount, leftShift, if_true]
    omega
  have hkls : k.toNat ≤ clampRep k + leftShift k true := by
    simp only [clampRep, leftShift, if_true]
    omega
  have hlsrep : leftShift k true ≤ clampRep k + 1 := by
    simp only [clampRep, leftShift, if_true]
    omega
  refine ⟨_, create_bspline_eq_some k y x true true e hk hn' hlen, ?_, ?_⟩
  · -- left end: `knots[k] ≤ x[0]`
    have hidx : clampRep k + leftShift k true <
        (finalKnots k true true x).length := by omega
    have hmid : (finalKnots k true true x).getD
        (clampRep k + leftShift k true) 0 =
        (shiftedX k true (dxStart x) x).getD (leftShift k true) 0 := by
      rw [hKdef, List.getD_append _ _ 0 _ (by omega), hbdef,
        List.getD_append _ _ 0 _
          (by rw [List.length_append, backSteps_length, hs2len]; omega),
        List.getD_append_right _ _ 0 _ (by rw [backSteps_length]; omega),
        backSteps_length, Nat.add_sub_cancel_left]
    calc (finalKnots k true true x).getD k.toNat 0
        ≤ (finalKnots k true true x).getD (clampRep k + leftShift k true) 0 :=
          getD_le_getD_of_chain' _ hKc hkls hidx
      _ = (shiftedX k true (dxStart x) x).getD (leftShift k true) 0 := hmid
      _ ≤ x.getD 0 0 := shiftedX_getD_ls_le k (dxStart x) x hne hds
  · -- right end: `x[n-1] ≤ knots[len-k-1]`
    have hidx2 : (finalKnots k true true x).length - k.toNat - 1 <
        (finalKnots k true true x).length := by omega
    by_cases hke : 0 < k ∧ k % 2 = 0
    · -- even degree: go through the first clamp-suffix knot
      have hk2 : 2 ≤ k := by omega
      have hrep1 : 1 ≤ clampRep k := by
        simp only [clampRep]
        omega
      have hlsrep' : leftShift k true ≤ clampRep k := by
        simp only [clampRep, leftShift, if_true]
        omega
      have hval : (finalKnots k true true x).getD
          (clampRep k + (x.length + leftShift k true)) 0 =
          x.getD (x.length - 2) 0 / 2 + x.getD (x.length - 1) 0 / 2 +
            dxEnd x := by
        rw [hKdef, List.getD_append _ _ 0 _ (by omega), hbdef,
          List.getD_append_right _ _ 0 _
            (by rw [List.length_append, backSteps_length, hs2len]),
          List.length_append, backSteps_length, hs2len, Nat.sub_self,
          getD_fwdSteps _ _ _ 0 (by omega),
          shiftedX_getD_last_even k (dxStart x) x hn' hke]
        push_cast
        ring
      have hj0le : clampRep k + (x.length + leftShift k true) ≤
          (finalKnots k true true x).length - k.toNat - 1 := by omega
      have hdx : dxEnd x = x.getD (x.length - 1) 0 - x.getD (x.length - 2) 0 :=
        rfl
      calc x.getD (x.length - 1) 0
          ≤ (finalKnots k true true x).getD
              (clampRep k + (x.length + leftShift k true)) 0 := by
            rw [hval, hdx]
            rw [hdx] at hde
            linarith
        _ ≤ (finalKnots k true true x).getD
              ((finalKnots k true true x).length - k.toNat - 1) 0 :=
            getD_le_getD_of_chain' _ hKc hj0le hidx2
    · -- odd (or zero) degree: the last original parameter is itself a knot
      have hj0 : (finalKnots k true true x).getD
          (clampRep k + (x.length + leftShift k true - 1)) 0 =
          x.getD (x.length - 1) 0 := by
        rw [hKdef, List.getD_append _ _ 0 _ (by omega), hbdef,
          List.getD_append _ _ 0 _
            (by rw [List.length_append, backSteps_length, hs2len]; omega),
          List.getD_append_right _ _ 0 _ (by rw [backSteps_length]; omega),
          backSteps_length, Nat.add_sub_cancel_left,
          shiftedX_getD_last_odd k (dxStart x) x hn' hke]
      have hj0le : clampRep k + (x.length + leftShift k true - 1) ≤
          (finalKnots k true true x).length - k.toNat - 1 := by omega
      calc x.getD (x.length - 1) 0
          = (finalKnots k true true x).getD
              (clampRep k + (x.length + leftShift k true - 1)) 0 := hj0.symm
        _ ≤ (finalKnots k true true x).getD
              ((finalKnots k true true x).length - k.toNat - 1) 0 :=
            getD_le_getD_of_chain' _ hKc hj0le hidx2

/-- C7 witness (for the amended statement). -/
theorem C7_amended_domain_encloses_witness :
    ∃ s : Spline,
      create_bspline 2 [4, 0, 3, 1] (some [0, 1, 5, 6]) true true true = some s ∧
      s.knots.getD (2 : ℤ).toNat 0 ≤ ([0, 1, 5, 6] : List ℚ).getD 0 0 ∧
      ([0, 1, 5, 6] : List ℚ).getD (([0, 1, 5, 6] : List ℚ).length - 1) 0 ≤
        s.knots.getD (s.knots.length - (2 : ℤ).toNat - 1) 0 :=
  C7_amended_domain_encloses 2 [4, 0, 3, 1] [0, 1, 5, 6] true
    (by decide) (by decide) (by decide) (by norm_num [List.chain'_cons])

/-! ### C9: clamped endpoint interpolation -/

/-- `0/0 := 0` convention of the Cox–de Boor recursion. -/
def divz (a b : ℚ) : ℚ := if b = 0 then 0 else a / b

/-- Modelled from the spec: the external B-spline evaluator (spec §1, §6 — a
"standard B-spline evaluation engine", `scipy.interpolate.BSpline`, which is
not part of `src/`), as the standard Cox–de Boor basis recursion
`B_{i,0}(u) = [t_i ≤ u < t_{i+1}]`,
`B_{i,p} = (u-t_i)/(t_{i+p}-t_i) B_{i,p-1} + (t_{i+p+1}-u)/(t_{i+p+1}-t_{i+1}) B_{i+1,p-1}`
with vanishing denominators contributing `0`. -/
def bbasis (t : List ℚ) (p : ℕ) (i : ℕ) (u : ℚ) : ℚ :=
  match p with
  | 0 => if t.getD i 0 ≤ u ∧ u < t.getD (i + 1) 0 then 1 else 0
  | q + 1 =>
      divz (u - t.getD i 0) (t.getD (i + q + 1) 0 - t.getD i 0) * bbasis t q i u +
      divz (t.getD (i + q + 2) 0 - u) (t.getD (i + q + 2) 0 - t.getD (i + 1) 0) *
        bbasis t q (i + 1) u

/-- Modelled from the spec: curve position at parameter `u`, the
control-point-weighted sum of the degree-`p` basis functions (spec §6: the
evaluator consumes `(knots, control_points, k)` and returns the position). -/
def evalSpline (s : Spline) (u : ℚ) : ℚ :=
  ((List.range s.controlPoints.length).map
    (fun i => s.controlPoints.getD i 0 * bbasis s.knots s.degree i u)).sum

theorem bbasis_zero (t : List ℚ) (i : ℕ) (u : ℚ) :
    bbasis t 0 i u = if t.getD i 0 ≤ u ∧ u < t.getD (i + 1) 0 then 1 else 0 :=
  rfl

theorem bbasis_one (t : List ℚ) (i : ℕ) (u : ℚ) :
    bbasis t 1 i u =
      divz (u - t.getD i 0) (t.getD (i + 1) 0 - t.getD i 0) * bbasis t 0 i u +
      divz (t.getD (i + 2) 0 - u) (t.getD (i + 2) 0 - t.getD (i + 1) 0) *
        bbasis t 0 (i + 1) u :=
  rfl

theorem bbasis_two (t : List ℚ) (i : ℕ) (u : ℚ) :
    bbasis t 2 i u =
      divz (u - t.getD i 0) (t.getD (i + 2) 0 - t.getD i 0) * bbasis t 1 i u +
      divz (t.getD (i + 3) 0 - u) (t.getD (i + 3) 0 - t.getD (i + 1) 0) *
        bbasis t 1 (i + 1) u :=
  rfl

theorem bbasis_three (t : List ℚ) (i : ℕ) (u : ℚ) :
    bbasis t 3 i u =
      divz (u - t.getD i 0) (t.getD (i + 3) 0 - t.getD i 0) * bbasis t 2 i u +
      divz (t.getD (i + 4) 0 - u) (t.getD (i + 4) 0 - t.getD (i + 1) 0) *
        bbasis t 2 (i + 1) u :=
  rfl

/-- C9 (the code violates the claim): for `k = 3`, `clamped = true`,
`fix_shift = true` and the non-uniform parameters `x = [0,1,3,4,5]` with
samples `y = [0,24,0,0,0]`, the produced spline evaluates at the first
original parameter `x[0] = 0` to `-1`, not to the first sample `y[0] = 0`
(an exact deviation of one full unit, far beyond floating tolerance), so
the curve does not pass through its first endpoint. -/
theorem C9_clamped_interpolation_fails :
    ∃ s : Spline,
      create_bspline 3 [0, 24, 0, 0, 0] (some [0, 1, 3, 4, 5]) true true true =
        some s ∧
      evalSpline s (([0, 1, 3, 4, 5] : List ℚ).getD 0 0) = -1 ∧
      ([0, 24, 0, 0, 0] : List ℚ).getD 0 0 = 0 := by
  refine ⟨_, create_bspline_eq_some 3 [0, 24, 0, 0, 0] [0, 1, 3, 4, 5]
    true true true (by decide) (by decide) (by decide), ?_, rfl⟩
  have hknots : finalKnots 3 true true [0, 1, 3, 4, 5] =
      [-4, -3, -2, -1, 0, 1, 3, 4, 5, 6, 7, 8, 9] := by
    norm_num [finalKnots, knotsBase, clampedX, shiftedX, backSteps_eq_map,
      fwdSteps_eq_map, dxStart, dxEnd,
      show leftShift 3 true = 2 from rfl, show clampRep 3 = 2 from rfl,
      show (tailCount 3 true).toNat = 2 from rfl,
      show List.range 2 = [0, 1] from rfl]
  have hcp : clampedCP 3 true [0, 24, 0, 0, 0] =
      [-48, -24, 0, 24, 0, 0, 0, 0, 0] := by
    norm_num [clampedCP, backSteps_eq_map, fwdSteps_eq_map,
      show clampRep 3 = 2 from rfl, show List.range 2 = [0, 1] from rfl]
  show evalSpline ⟨finalKnots 3 true true [0, 1, 3, 4, 5],
    clampedCP 3 true [0, 24, 0, 0, 0], (3 : ℤ).toNat, true⟩ _ = -1
  rw [show (([0, 1, 3, 4, 5] : List ℚ).getD 0 0) = 0 from rfl]
  simp only [evalSpline, hknots, hcp]
  norm_num [show List.range 9 = [0, 1, 2, 3, 4, 5, 6, 7, 8] from rfl,
    show ((3 : ℤ).toNat) = 3 from rfl,
    bbasis_three, bbasis_two, bbasis_one, bbasis_zero, divz]

end BSpline
